import Mathlib

/-!
Verification of the reconciliation engine of `tailscale-dns-sync` (`main.go`).

The engine keeps a Cloudflare DNS zone in sync with the membership of a
tailscale mesh.  The file embeds the pure content of `main.go` shallowly:

* `getName` embeds the Go function `getName` (`strings.Split(strings.ToLower(name), ".")`,
  first segment).  Go strings are modelled through `String.data`, Go's
  `strings.ToLower` as a character-wise `Char.toLower` (ASCII case folding,
  which is exact for all inputs considered here).
* `meshSnapshot` embeds the two blocks that populate `ts` (the mesh name set)
  and `tsMap` (name to IPv4 string), folding over the self entry followed by
  the peer entries in observation order.
* `cfSnapshot` embeds the loop that populates `cf` and `cfMap` from the DNS
  record listing.
* `sync` embeds the whole of the Go `sync` function as a function from the
  status snapshot, the outcome of the single `ListDNSRecords` call and the
  success behaviour of `CreateDNSRecord`, to the trace of provider calls it
  issues.  The set iteration order of `mapset` is unspecified in Go; the
  embedding fixes one refinement of it (mesh-only names first, then
  record-only names) — no claim below depends on the order.
* `applyCall`/`applyTrace` model the provider-side effect of the issued calls
  on the listing of records carrying the management comment: a successful
  create appends a record (with a provider-assigned id), a successful delete
  removes the records with the given id, and failed calls change nothing.
* `listedRecords` models that the Go code consumes only the first result page
  of `ListDNSRecords` (`records, _, err := ...`; the `ResultInfo` carrying
  pagination state is discarded and no further page is requested).
-/

/-- Constant `CloudflareSyncDNSComment` from `main.go`. -/
def CloudflareSyncDNSComment : String := "_tailscale"

/-- Constant `CloudflareDomainSuffix` from `main.go`. -/
def CloudflareDomainSuffix : String := ".int"

/-- One tailscale address as the code sees it: its family test `Is4` and its
textual form `String()`. -/
structure TSIP where
  is4 : Bool
  str : String
deriving DecidableEq

/-- One entry of the tailscale status (`st.Self` or an element of `st.Peer`):
the fields `DNSName` and `TailscaleIPs` used by `sync`. -/
structure PeerStatus where
  dnsName : String
  tailscaleIPs : List TSIP
deriving DecidableEq

/-- The tailscale status `st`: the self entry and the peer entries in the
order the Go `range` over `st.Peer` observes them. -/
structure Status where
  self : PeerStatus
  peers : List PeerStatus
deriving DecidableEq

/-- A DNS record as returned by the listing: the fields `ID` and `Name` used
by `sync`.  Every listed record carries the management comment, because the
listing filters on it server-side. -/
structure DNSRecord where
  id : String
  name : String
deriving DecidableEq

/-- The parameters of a `CreateDNSRecord` call (`Type`, `Name`, `Content`,
`Comment`, `TTL`). -/
structure CreateParams where
  rtype : String
  name : String
  content : String
  comment : String
  ttl : Nat
deriving DecidableEq

/-- One provider API call issued by `sync`: the listing, a record creation, or
a record deletion by record id. -/
inductive Call where
  | list : Call
  | create : CreateParams → Call
  | delete : String → Call
deriving DecidableEq

/-- Splitting of a character list at `'.'`, the embedding of Go
`strings.Split(s, ".")`: it yields the maximal dot-free segments and never
yields an empty list (Go `Split` returns `[""]` on the empty string). -/
def splitDotAux : List Char → List Char → List (List Char)
  | [], acc => [acc.reverse]
  | c :: cs, acc =>
      if c = '.' then acc.reverse :: splitDotAux cs [] else splitDotAux cs (c :: acc)

/-- Splitting a character list at every `'.'`. -/
def splitDot (l : List Char) : List (List Char) := splitDotAux l []

/-- Embedding of the Go function `getName`: lower-case the input, split at
`'.'`, return the first segment (the `len(s) > 0` guard of the source is the
match on the — never empty — segment list). -/
def getName (name : String) : String :=
  match splitDot (name.data.map Char.toLower) with
  | [] => ""
  | x :: _ => String.mk x

/-- Overwriting insertion into a name-keyed map, the embedding of a Go map
assignment `m[k] = v`. -/
def mapPut (m : String → Option String) (k v : String) : String → Option String :=
  fun x => if x = k then some v else m x

/-- Insertion into a `mapset` set, keeping the first insertion position. -/
def setAdd (s : List String) (x : String) : List String :=
  if x ∈ s then s else s ++ [x]

/-- A directory as built by the snapshots: the name set (`ts` resp. `cf`) and
the name-keyed map (`tsMap` resp. `cfMap`). -/
abbrev Directory := List String × (String → Option String)

/-- The empty directory both snapshots start from. -/
def emptyDirectory : Directory := ([], fun _ => none)

/-- Embedding of the inner loop `for _, ip := range …TailscaleIPs`: every
IPv4 address overwrites the map entry, so the last IPv4 address wins. -/
def addIP (name : String) (m : String → Option String) (ip : TSIP) : String → Option String :=
  if ip.is4 then mapPut m name ip.str else m

/-- Embedding of the per-entry block of `sync` that handles one status entry
(self or peer): normalize the name, and if it is nonempty add it to `ts` and
run the IPv4 loop over the entry's addresses. -/
def addEntry (acc : Directory) (p : PeerStatus) : Directory :=
  let name := getName p.dnsName
  if name = "" then acc
  else (setAdd acc.1 name, p.tailscaleIPs.foldl (addIP name) acc.2)

/-- Embedding of the mesh snapshot of `sync`: the self entry followed by the
peer entries populate `ts` and `tsMap`. -/
def meshSnapshot (st : Status) : Directory :=
  (st.self :: st.peers).foldl addEntry emptyDirectory

/-- Embedding of the per-record block of the listing loop of `sync`:
normalize the record name, and if it is nonempty add it to `cf` and map it to
the record id. -/
def cfStep (acc : Directory) (r : DNSRecord) : Directory :=
  let name := getName r.name
  if name = "" then acc
  else (setAdd acc.1 name, mapPut acc.2 name r.id)

/-- Embedding of the managed-record snapshot of `sync`: the listed records
populate `cf` and `cfMap`. -/
def cfSnapshot (records : List DNSRecord) : Directory :=
  records.foldl cfStep emptyDirectory

/-- Embedding of `ts.SymmetricDifference(cf).ToSlice()`: the names present in
exactly one of the two sets.  The order fixes one refinement of the
unspecified `mapset` iteration order. -/
def symmetricDifference (a b : List String) : List String :=
  a.filter (fun x => x ∉ b) ++ b.filter (fun x => x ∉ a)

/-- Embedding of the `cf.Contains(name)` branch of the reconciliation loop:
look up the record id and issue the delete call.  The call is issued
independently of its outcome; a failure only logs and continues. -/
def deleteName (cfS : List String) (cfMap : String → Option String) (name : String) :
    List Call :=
  if name ∈ cfS then
    match cfMap name with
    | none => []
    | some rid => [Call.delete rid]
  else []

/-- Embedding of one iteration of the reconciliation loop of `sync` for one
name of the symmetric difference.  `createOk` tells, per created DNS name,
whether the `CreateDNSRecord` call succeeds; on failure (and on a missing
address) the Go `continue` skips the `cf.Contains` branch of the same
iteration. -/
def syncName (tsS cfS : List String) (tsMap cfMap : String → Option String)
    (createOk : String → Bool) (name : String) : List Call :=
  if name ∈ tsS then
    match tsMap name with
    | none => []
    | some ip =>
        if createOk (name ++ CloudflareDomainSuffix) then
          Call.create ⟨"A", name ++ CloudflareDomainSuffix, ip, CloudflareSyncDNSComment, 1⟩
            :: deleteName cfS cfMap name
        else
          [Call.create ⟨"A", name ++ CloudflareDomainSuffix, ip, CloudflareSyncDNSComment, 1⟩]
  else deleteName cfS cfMap name

/-- Embedding of the Go function `sync` as the trace of provider calls of one
cycle: build the two snapshots, issue the listing call, and on success walk
the symmetric difference.  `listResult` is the outcome of the single
`ListDNSRecords` call (first result page), `createOk` the success behaviour
of record creation. -/
def sync (st : Status) (listResult : Except Unit (List DNSRecord))
    (createOk : String → Bool) : List Call :=
  let ts := meshSnapshot st
  match listResult with
  | Except.error _ => [Call.list]
  | Except.ok records =>
      let cf := cfSnapshot records
      let needToSync := symmetricDifference ts.1 cf.1
      if needToSync = [] then [Call.list]
      else Call.list :: needToSync.flatMap (syncName ts.1 cf.1 ts.2 cf.2 createOk)

/-- Provider-side effect of one call on the listing of managed records: a
successful create appends the new record (with the provider-assigned id
`freshId` of its DNS name), a successful delete removes the records with the
given id, failed calls and the listing change nothing. -/
def applyCall (createOk deleteOk : String → Bool) (freshId : String → String)
    (recs : List DNSRecord) : Call → List DNSRecord
  | Call.list => recs
  | Call.create p => if createOk p.name then recs ++ [⟨freshId p.name, p.name⟩] else recs
  | Call.delete rid => if deleteOk rid then recs.filter (fun r => r.id ≠ rid) else recs

/-- Provider-side effect of a whole call trace on the managed-record listing. -/
def applyTrace (createOk deleteOk : String → Bool) (freshId : String → String)
    (recs : List DNSRecord) (calls : List Call) : List DNSRecord :=
  calls.foldl (applyCall createOk deleteOk freshId) recs

/-- The textual form of the first IPv4-family address of an address list (the
address the spec says the snapshot selects). -/
def firstIs4 (ips : List TSIP) : Option String :=
  ((ips.filter (fun ip => ip.is4)).head?).map (fun ip => ip.str)

/-- The textual form of the last IPv4-family address of an address list (the
address the code actually keeps, since every IPv4 address overwrites the map
entry). -/
def lastIs4 (ips : List TSIP) : Option String :=
  ((ips.filter (fun ip => ip.is4)).getLast?).map (fun ip => ip.str)

/-- The record list the code consumes from a paginated listing: only the
first page (`records, _, err := api.ListDNSRecords(...)` discards the
`ResultInfo` and requests no further page). -/
def listedRecords (pages : List (List DNSRecord)) : List DNSRecord := pages.headD []

/-- The first dot-separated segment of a character list (the part before the
first `'.'`), used to state what `getName` computes independently of the
split-based implementation. -/
def firstSegment (l : List Char) : List Char := l.takeWhile (fun c => c ≠ '.')

/-- A status with mesh names `a` and `b`, used as concrete convergence input. -/
def exampleStatus : Status :=
  ⟨⟨"A.example.ts.net", [⟨true, "100.64.0.1"⟩]⟩, [⟨"b.example.ts.net", [⟨true, "100.64.0.2"⟩]⟩]⟩

/-- Managed records for the names `b` and `c`, the concrete convergence input. -/
def exampleRecords : List DNSRecord := [⟨"recb", "b.int"⟩, ⟨"recc", "c.int"⟩]

/-- A status whose only entry has a name but no address at all. -/
def noAddrStatus : Status := ⟨⟨"x", []⟩, []⟩

/-- A status with an addressed self entry and a peer that has only a
non-IPv4 address. -/
def mixedStatus : Status :=
  ⟨⟨"selfhost.ts.net", [⟨true, "100.64.0.3"⟩]⟩, [⟨"x.ts.net", [⟨false, "fd7a::1"⟩]⟩]⟩

/-- A status whose single entry carries two IPv4 addresses. -/
def twoV4Status : Status := ⟨⟨"x", [⟨true, "1.1.1.1"⟩, ⟨true, "2.2.2.2"⟩]⟩, []⟩

/-- Two entries normalizing to the same name `x`; the later one has no
address. -/
def dupNameStatus : Status := ⟨⟨"x.a", [⟨true, "1.1.1.1"⟩]⟩, [⟨"x.b", []⟩]⟩

/-- Two entries normalizing to the same name `x`; the later one has an IPv4
address. -/
def dupNameStatus2 : Status := ⟨⟨"x.a", [⟨true, "1.1.1.1"⟩]⟩, [⟨"x.b", [⟨true, "3.3.3.3"⟩]⟩]⟩

/-- A paginated listing whose provider caps results at one record per page. -/
def twoPages : List (List DNSRecord) := [[⟨"1", "a.int"⟩], [⟨"2", "b.int"⟩]]

/-- A status already in sync with `syncedRecords`. -/
def syncedStatus : Status := ⟨⟨"h.ts.net", [⟨true, "100.64.0.4"⟩]⟩, []⟩

/-- A record listing already in sync with `syncedStatus`. -/
def syncedRecords : List DNSRecord := [⟨"rech", "h.int"⟩]

/-- A one-host status with an address, so that one cycle creates its record. -/
def freshStatus : Status := ⟨⟨"host1.ts.net", [⟨true, "100.64.0.9"⟩]⟩, []⟩

theorem toNat_ofNat_valid (m : Nat) (h : m.isValidChar) : (Char.ofNat m).toNat = m := by
  rw [Char.ofNat, dif_pos h]
  simp [Char.ofNatAux, Char.toNat, UInt32.ofNat', UInt32.toNat]

theorem toLower_def (c : Char) :
    Char.toLower c = if c.toNat ≥ 65 ∧ c.toNat ≤ 90 then Char.ofNat (c.toNat + 32) else c := rfl

theorem toLower_eq_dot_iff (c : Char) : Char.toLower c = '.' ↔ c = '.' := by
  constructor
  · intro h
    rw [toLower_def] at h
    split at h
    · exfalso
      rename_i hr
      have h46 : (Char.ofNat (c.toNat + 32)).toNat = ('.' : Char).toNat := by rw [h]
      have hv : (c.toNat + 32).isValidChar := by
        constructor
        omega
      rw [toNat_ofNat_valid _ hv] at h46
      have hd : ('.' : Char).toNat = 46 := by decide
      omega
    · exact h
  · intro h
    subst h
    decide

theorem toLower_idem (c : Char) : Char.toLower (Char.toLower c) = Char.toLower c := by
  rw [toLower_def c]
  split
  · rename_i hr
    have hv : (c.toNat + 32).isValidChar := by constructor; omega
    rw [toLower_def]
    rw [toNat_ofNat_valid _ hv]
    rw [if_neg (by omega)]
  · rw [toLower_def]
    split
    · rename_i hr hr2
      exact absurd hr2 hr
    · rfl

theorem splitDotAux_head (l : List Char) :
    ∀ acc : List Char, ∃ t, splitDotAux l acc = (acc.reverse ++ firstSegment l) :: t := by
  induction l with
  | nil =>
      intro acc
      exact ⟨[], by simp [splitDotAux, firstSegment]⟩
  | cons c cs ih =>
      intro acc
      by_cases h : c = '.'
      · subst h
        refine ⟨splitDotAux cs [], ?_⟩
        simp [splitDotAux, firstSegment]
      · obtain ⟨t, ht⟩ := ih (c :: acc)
        refine ⟨t, ?_⟩
        rw [splitDotAux, if_neg h, ht]
        simp [firstSegment, h, List.takeWhile_cons, List.append_assoc]

theorem splitDot_head (l : List Char) : ∃ t, splitDot l = firstSegment l :: t := by
  simpa [splitDot] using splitDotAux_head l []

theorem firstSegment_map_toLower (l : List Char) :
    firstSegment (l.map Char.toLower) = (firstSegment l).map Char.toLower := by
  induction l with
  | nil => rfl
  | cons c cs ih =>
      by_cases h : c = '.'
      · subst h
        have hdot : Char.toLower '.' = '.' := by decide
        simp [firstSegment, List.takeWhile_cons, hdot]
      · have h2 : ¬ Char.toLower c = '.' := fun hh => h ((toLower_eq_dot_iff c).1 hh)
        simpa [firstSegment, List.takeWhile_cons, h, h2, decide_not] using ih

theorem getName_eq (s : String) :
    getName s = String.mk ((firstSegment s.data).map Char.toLower) := by
  unfold getName
  obtain ⟨t, ht⟩ := splitDot_head (s.data.map Char.toLower)
  rw [ht, firstSegment_map_toLower]

/-- C9: for every input string, `getName` returns the lowercase value of the
input's first dot-separated segment (the characters before the first `'.'`),
and never fails — it is a total function, and in particular
`getName "Host.Sub.int" = "host"`, `getName "" = ""` and `getName "." = ""`. -/
theorem getName_spec :
    (∀ s : String, getName s = String.mk ((firstSegment s.data).map Char.toLower))
    ∧ getName "Host.Sub.int" = "host" ∧ getName "" = "" ∧ getName "." = "" := by
  refine ⟨getName_eq, by decide, by decide, by decide⟩

theorem mem_firstSegment_ne_dot {c : Char} {l : List Char} (h : c ∈ firstSegment l) :
    c ≠ '.' := by
  have := List.mem_takeWhile_imp h
  simpa using this

theorem takeWhile_append_dot (t r : List Char) (h : ∀ c ∈ t, c ≠ '.') :
    firstSegment (t ++ '.' :: r) = t := by
  induction t with
  | nil => simp [firstSegment, List.takeWhile_cons]
  | cons c cs ih =>
      have hc : c ≠ '.' := h c (by simp)
      have ihh := ih (fun d hd => h d (by simp [hd]))
      simp only [firstSegment, List.cons_append, List.takeWhile_cons] at ihh ⊢
      simp only [decide_not] at ihh
      simp [hc, ihh]

theorem getName_data (s : String) :
    (getName s).data = (firstSegment s.data).map Char.toLower := by
  rw [getName_eq]

theorem getName_append_suffix (s : String) :
    getName (getName s ++ CloudflareDomainSuffix) = getName s := by
  have hdata : (getName s ++ CloudflareDomainSuffix).data
      = (getName s).data ++ ('.' :: 'i' :: 'n' :: 't' :: []) := by
    rw [String.data_append]
    rfl
  have hne : ∀ c ∈ (getName s).data, c ≠ '.' := by
    intro c hc
    rw [getName_data] at hc
    obtain ⟨d, hd, hdc⟩ := List.mem_map.1 hc
    intro hdot
    exact mem_firstSegment_ne_dot hd ((toLower_eq_dot_iff d).1 (hdc.trans hdot))
  have hfix : ((getName s).data).map Char.toLower = (getName s).data := by
    rw [getName_data, List.map_map]
    exact List.map_congr_left (fun d _ => toLower_idem d)
  rw [getName_eq (getName s ++ CloudflareDomainSuffix), hdata,
    takeWhile_append_dot _ _ hne, hfix]

theorem setAdd_mem (s : List String) (x y : String) : y ∈ setAdd s x ↔ y ∈ s ∨ y = x := by
  unfold setAdd
  split
  · rename_i hx
    constructor
    · exact Or.inl
    · rintro (h | rfl)
      · exact h
      · exact hx
  · simp

theorem setAdd_nodup (s : List String) (x : String) (h : s.Nodup) : (setAdd s x).Nodup := by
  unfold setAdd
  split
  · exact h
  · rename_i hx
    simpa [List.nodup_append] using ⟨h, hx⟩

theorem cfFold_mem (rs : List DNSRecord) :
    ∀ (acc : Directory) (n : String),
      n ∈ (rs.foldl cfStep acc).1 ↔ n ∈ acc.1 ∨ (n ≠ "" ∧ ∃ r ∈ rs, getName r.name = n) := by
  induction rs with
  | nil => intro acc n; simp
  | cons r rs ih =>
      intro acc n
      rw [List.foldl_cons, ih]
      unfold cfStep
      by_cases h : getName r.name = ""
      · rw [if_pos h]
        constructor
        · rintro (ha | hb)
          · exact Or.inl ha
          · exact Or.inr ⟨hb.1, hb.2.imp (fun x hx => ⟨by simp [hx.1], hx.2⟩)⟩
        · rintro (ha | ⟨hne, x, hx, hgx⟩)
          · exact Or.inl ha
          · rcases List.mem_cons.1 hx with rfl | hx2
            · exact absurd (hgx ▸ h) hne
            · exact Or.inr ⟨hne, x, hx2, hgx⟩
      · rw [if_neg h]
        simp only [setAdd_mem]
        constructor
        · rintro ((ha | rfl) | hb)
          · exact Or.inl ha
          · exact Or.inr ⟨h, r, by simp⟩
          · exact Or.inr ⟨hb.1, hb.2.imp (fun x hx => ⟨by simp [hx.1], hx.2⟩)⟩
        · rintro (ha | ⟨hne, x, hx, hgx⟩)
          · exact Or.inl (Or.inl ha)
          · rcases List.mem_cons.1 hx with rfl | hx2
            · exact Or.inl (Or.inr hgx.symm)
            · exact Or.inr ⟨hne, x, hx2, hgx⟩

theorem cfStep_def (acc : Directory) (r : DNSRecord) :
    cfStep acc r = if getName r.name = "" then acc
      else (setAdd acc.1 (getName r.name), mapPut acc.2 (getName r.name) r.id) := rfl

theorem cfFold_nodup (rs : List DNSRecord) :
    ∀ acc : Directory, acc.1.Nodup → (rs.foldl cfStep acc).1.Nodup := by
  induction rs with
  | nil => intro acc h; exact h
  | cons r rs ih =>
      intro acc h
      rw [List.foldl_cons]
      apply ih
      rw [cfStep_def]
      by_cases hre : getName r.name = ""
      · rw [if_pos hre]
        exact h
      · rw [if_neg hre]
        exact setAdd_nodup _ _ h

theorem cfFold_map_some (rs : List DNSRecord) :
    ∀ (acc : Directory) (n i : String), (rs.foldl cfStep acc).2 n = some i →
      acc.2 n = some i ∨ ∃ r ∈ rs, r.id = i ∧ getName r.name = n := by
  induction rs with
  | nil => intro acc n i h; exact Or.inl h
  | cons r rs ih =>
      intro acc n i h
      rw [List.foldl_cons] at h
      rcases ih _ _ _ h with hstep | ⟨x, hx, hxi⟩
      · rw [cfStep_def] at hstep
        by_cases hre : getName r.name = ""
        · rw [if_pos hre] at hstep
          exact Or.inl hstep
        · rw [if_neg hre] at hstep
          simp only [mapPut] at hstep
          by_cases hnr : n = getName r.name
          · rw [if_pos hnr] at hstep
            exact Or.inr ⟨r, by simp, Option.some.inj hstep, hnr.symm⟩
          · rw [if_neg hnr] at hstep
            exact Or.inl hstep
      · exact Or.inr ⟨x, by simp [hx], hxi⟩

theorem cfFold_map_total (rs : List DNSRecord) :
    ∀ acc : Directory, (∀ k ∈ acc.1, ∃ j, acc.2 k = some j) →
      ∀ n ∈ (rs.foldl cfStep acc).1, ∃ i, (rs.foldl cfStep acc).2 n = some i := by
  induction rs with
  | nil => intro acc h n hn; exact h n hn
  | cons r rs ih =>
      intro acc h
      rw [List.foldl_cons]
      apply ih
      intro k hk
      rw [cfStep_def] at hk ⊢
      by_cases hre : getName r.name = ""
      · rw [if_pos hre] at hk ⊢
        exact h k hk
      · rw [if_neg hre] at hk ⊢
        simp only [setAdd_mem] at hk
        simp only [mapPut]
        by_cases hkr : k = getName r.name
        · exact ⟨r.id, by rw [if_pos hkr]⟩
        · rcases hk with hk | hk
          · obtain ⟨j, hj⟩ := h k hk
            refine ⟨j, ?_⟩
            rw [if_neg hkr]
            exact hj
          · exact absurd hk hkr

theorem mem_cfSnapshot (rs : List DNSRecord) (n : String) :
    n ∈ (cfSnapshot rs).1 ↔ n ≠ "" ∧ ∃ r ∈ rs, getName r.name = n := by
  unfold cfSnapshot
  rw [cfFold_mem]
  simp [emptyDirectory]

theorem cfSnapshot_nodup (rs : List DNSRecord) : (cfSnapshot rs).1.Nodup :=
  cfFold_nodup rs emptyDirectory (by simp [emptyDirectory])

theorem cfSnapshot_map_some (rs : List DNSRecord) (n i : String)
    (h : (cfSnapshot rs).2 n = some i) : ∃ r ∈ rs, r.id = i ∧ getName r.name = n := by
  rcases cfFold_map_some rs emptyDirectory n i h with hbad | hgood
  · simp [emptyDirectory] at hbad
  · exact hgood

theorem cfSnapshot_map_total (rs : List DNSRecord) (n : String)
    (hn : n ∈ (cfSnapshot rs).1) : ∃ i, (cfSnapshot rs).2 n = some i :=
  cfFold_map_total rs emptyDirectory (by simp [emptyDirectory]) n hn

theorem addEntry_def (acc : Directory) (p : PeerStatus) :
    addEntry acc p = if getName p.dnsName = "" then acc
      else (setAdd acc.1 (getName p.dnsName),
        p.tailscaleIPs.foldl (addIP (getName p.dnsName)) acc.2) := rfl

theorem meshFold_mem (es : List PeerStatus) :
    ∀ (acc : Directory) (n : String),
      n ∈ (es.foldl addEntry acc).1 ↔ n ∈ acc.1 ∨ (n ≠ "" ∧ ∃ p ∈ es, getName p.dnsName = n) := by
  induction es with
  | nil => intro acc n; simp
  | cons p es ih =>
      intro acc n
      rw [List.foldl_cons, ih, addEntry_def]
      by_cases h : getName p.dnsName = ""
      · rw [if_pos h]
        constructor
        · rintro (ha | hb)
          · exact Or.inl ha
          · exact Or.inr ⟨hb.1, hb.2.imp (fun x hx => ⟨by simp [hx.1], hx.2⟩)⟩
        · rintro (ha | ⟨hne, x, hx, hgx⟩)
          · exact Or.inl ha
          · rcases List.mem_cons.1 hx with rfl | hx2
            · exact absurd (hgx ▸ h) hne
            · exact Or.inr ⟨hne, x, hx2, hgx⟩
      · rw [if_neg h]
        simp only [setAdd_mem]
        constructor
        · rintro ((ha | rfl) | hb)
          · exact Or.inl ha
          · exact Or.inr ⟨h, p, by simp⟩
          · exact Or.inr ⟨hb.1, hb.2.imp (fun x hx => ⟨by simp [hx.1], hx.2⟩)⟩
        · rintro (ha | ⟨hne, x, hx, hgx⟩)
          · exact Or.inl (Or.inl ha)
          · rcases List.mem_cons.1 hx with rfl | hx2
            · exact Or.inl (Or.inr hgx.symm)
            · exact Or.inr ⟨hne, x, hx2, hgx⟩

theorem meshFold_nodup (es : List PeerStatus) :
    ∀ acc : Directory, acc.1.Nodup → (es.foldl addEntry acc).1.Nodup := by
  induction es with
  | nil => intro acc h; exact h
  | cons p es ih =>
      intro acc h
      rw [List.foldl_cons]
      apply ih
      rw [addEntry_def]
      by_cases hre : getName p.dnsName = ""
      · rw [if_pos hre]
        exact h
      · rw [if_neg hre]
        exact setAdd_nodup _ _ h

theorem mem_meshSnapshot (st : Status) (n : String) :
    n ∈ (meshSnapshot st).1 ↔ n ≠ "" ∧ ∃ p ∈ st.self :: st.peers, getName p.dnsName = n := by
  unfold meshSnapshot
  rw [meshFold_mem]
  simp [emptyDirectory]

theorem meshSnapshot_nodup (st : Status) : (meshSnapshot st).1.Nodup :=
  meshFold_nodup _ emptyDirectory (by simp [emptyDirectory])

theorem mem_symmetricDifference (a b : List String) (x : String) :
    x ∈ symmetricDifference a b ↔ (x ∈ a ∧ x ∉ b) ∨ (x ∈ b ∧ x ∉ a) := by
  simp [symmetricDifference, List.mem_filter, List.mem_append]

theorem symmetricDifference_eq_nil (a b : List String) (h : ∀ x, x ∈ a ↔ x ∈ b) :
    symmetricDifference a b = [] := by
  have h1 : a.filter (fun x => x ∉ b) = [] := by
    rw [List.filter_eq_nil_iff]
    intro x hx
    simp [(h x).1 hx]
  have h2 : b.filter (fun x => x ∉ a) = [] := by
    rw [List.filter_eq_nil_iff]
    intro x hx
    simp [(h x).2 hx]
  unfold symmetricDifference
  rw [h1, h2]
  rfl

theorem eq_singleton_of_mem_nodup (l : List String) (a : String) (hnd : l.Nodup)
    (h : ∀ x, x ∈ l ↔ x = a) : l = [a] := by
  cases l with
  | nil => exact absurd ((h a).2 rfl) (List.not_mem_nil a)
  | cons y ys =>
      have hy : y = a := (h y).1 (by simp)
      subst hy
      cases ys with
      | nil => rfl
      | cons z zs =>
          exfalso
          have hz : z = y := (h z).1 (by simp)
          subst hz
          simp [List.nodup_cons] at hnd

theorem deleteName_not_mem (cfS : List String) (cfMap : String → Option String)
    (name : String) (h : name ∉ cfS) : deleteName cfS cfMap name = [] := by
  unfold deleteName
  rw [if_neg h]

theorem deleteName_mem (cfS : List String) (cfMap : String → Option String)
    (name i : String) (h : name ∈ cfS) (hi : cfMap name = some i) :
    deleteName cfS cfMap name = [Call.delete i] := by
  unfold deleteName
  rw [if_pos h, hi]

theorem syncName_ts_none (tsS cfS : List String) (tsMap cfMap : String → Option String)
    (createOk : String → Bool) (name : String) (hts : name ∈ tsS) (hip : tsMap name = none) :
    syncName tsS cfS tsMap cfMap createOk name = [] := by
  unfold syncName
  rw [if_pos hts, hip]

theorem syncName_tsOnly (tsS cfS : List String) (tsMap cfMap : String → Option String)
    (createOk : String → Bool) (name ip : String)
    (hts : name ∈ tsS) (hcf : name ∉ cfS) (hip : tsMap name = some ip) :
    syncName tsS cfS tsMap cfMap createOk name =
      [Call.create ⟨"A", name ++ CloudflareDomainSuffix, ip, CloudflareSyncDNSComment, 1⟩] := by
  unfold syncName
  rw [if_pos hts, hip, deleteName_not_mem _ _ _ hcf]
  split
  · rename_i heq
    exact absurd heq (by simp)
  · rename_i rid heq
    injection heq with h
    subst h
    split <;> rfl

theorem syncName_cfOnly (tsS cfS : List String) (tsMap cfMap : String → Option String)
    (createOk : String → Bool) (name i : String)
    (hts : name ∉ tsS) (hcf : name ∈ cfS) (hi : cfMap name = some i) :
    syncName tsS cfS tsMap cfMap createOk name = [Call.delete i] := by
  unfold syncName
  rw [if_neg hts]
  exact deleteName_mem _ _ _ _ hcf hi

theorem sync_ok (st : Status) (records : List DNSRecord) (createOk : String → Bool) :
    sync st (Except.ok records) createOk =
      if symmetricDifference (meshSnapshot st).1 (cfSnapshot records).1 = [] then [Call.list]
      else Call.list ::
        (symmetricDifference (meshSnapshot st).1 (cfSnapshot records).1).flatMap
          (syncName (meshSnapshot st).1 (cfSnapshot records).1
            (meshSnapshot st).2 (cfSnapshot records).2 createOk) := rfl

theorem convergence_trace (st : Status) (records : List DNSRecord)
    (createOk : String → Bool) (a b c ipa idc : String)
    (hab : a ≠ b) (hac : a ≠ c) (hbc : b ≠ c)
    (hts : ∀ x, x ∈ (meshSnapshot st).1 ↔ x = a ∨ x = b)
    (hcf : ∀ x, x ∈ (cfSnapshot records).1 ↔ x = b ∨ x = c)
    (hipa : (meshSnapshot st).2 a = some ipa)
    (hidc : (cfSnapshot records).2 c = some idc) :
    sync st (Except.ok records) createOk =
      [Call.list,
       Call.create ⟨"A", a ++ CloudflareDomainSuffix, ipa, CloudflareSyncDNSComment, 1⟩,
       Call.delete idc] := by
  have hamem : a ∈ (meshSnapshot st).1 := (hts a).2 (Or.inl rfl)
  have hanotcf : a ∉ (cfSnapshot records).1 := by
    rw [hcf]
    rintro (h | h)
    · exact hab h
    · exact hac h
  have hcmem : c ∈ (cfSnapshot records).1 := (hcf c).2 (Or.inr rfl)
  have hcnotts : c ∉ (meshSnapshot st).1 := by
    rw [hts]
    rintro (h | h)
    · exact hac h.symm
    · exact hbc h.symm
  have hA : (meshSnapshot st).1.filter (fun x => x ∉ (cfSnapshot records).1) = [a] := by
    apply eq_singleton_of_mem_nodup _ _ ((meshSnapshot_nodup st).filter _)
    intro x
    simp only [List.mem_filter, decide_eq_true_eq, hts, hcf]
    constructor
    · rintro ⟨hx1 | rfl, hx2⟩
      · exact hx1
      · exact absurd (Or.inl rfl) hx2
    · rintro rfl
      refine ⟨Or.inl rfl, ?_⟩
      rintro (h | h)
      · exact hab h
      · exact hac h
  have hB : (cfSnapshot records).1.filter (fun x => x ∉ (meshSnapshot st).1) = [c] := by
    apply eq_singleton_of_mem_nodup _ _ ((cfSnapshot_nodup records).filter _)
    intro x
    simp only [List.mem_filter, decide_eq_true_eq, hts, hcf]
    constructor
    · rintro ⟨rfl | hx1, hx2⟩
      · exact absurd (Or.inr rfl) hx2
      · exact hx1
    · rintro rfl
      refine ⟨Or.inr rfl, ?_⟩
      rintro (h | h)
      · exact hac h.symm
      · exact hbc h.symm
  have hD : symmetricDifference (meshSnapshot st).1 (cfSnapshot records).1 = [a, c] := by
    unfold symmetricDifference
    rw [hA, hB]
    rfl
  rw [sync_ok, hD, if_neg (by simp)]
  rw [show ([a, c] : List String).flatMap
      (syncName (meshSnapshot st).1 (cfSnapshot records).1
        (meshSnapshot st).2 (cfSnapshot records).2 createOk)
    = syncName (meshSnapshot st).1 (cfSnapshot records).1
        (meshSnapshot st).2 (cfSnapshot records).2 createOk a
      ++ (syncName (meshSnapshot st).1 (cfSnapshot records).1
        (meshSnapshot st).2 (cfSnapshot records).2 createOk c ++ []) from rfl]
  rw [syncName_tsOnly _ _ _ _ _ _ _ hamem hanotcf hipa,
    syncName_cfOnly _ _ _ _ _ _ _ hcnotts hcmem hidc]
  rfl

/-- C1: in a cycle whose mesh directory holds exactly the names `a` and `b`,
each mapped to an IPv4 address, whose managed directory holds exactly the
names `b` and `c`, and whose provider calls succeed, `sync` issues exactly
one create call (for `a`, with `a`'s address), exactly one delete call (for
`c`'s record id), and no create or delete affecting `b`. -/
theorem sync_convergence (st : Status) (records : List DNSRecord)
    (createOk : String → Bool) (a b c ipa ipb idc : String)
    (hab : a ≠ b) (hac : a ≠ c) (hbc : b ≠ c)
    (hts : ∀ x, x ∈ (meshSnapshot st).1 ↔ x = a ∨ x = b)
    (hcf : ∀ x, x ∈ (cfSnapshot records).1 ↔ x = b ∨ x = c)
    (hipa : (meshSnapshot st).2 a = some ipa)
    (hipb : (meshSnapshot st).2 b = some ipb)
    (hidc : (cfSnapshot records).2 c = some idc)
    (hok : createOk (a ++ CloudflareDomainSuffix) = true) :
    sync st (Except.ok records) createOk =
      [Call.list,
       Call.create ⟨"A", a ++ CloudflareDomainSuffix, ipa, CloudflareSyncDNSComment, 1⟩,
       Call.delete idc] :=
  convergence_trace st records createOk a b c ipa idc hab hac hbc hts hcf hipa hidc

/-- Witness: `sync_convergence` at the concrete convergence input (mesh
names `a`, `b`; managed records `b`, `c`). -/
theorem sync_convergence_witness :
    sync exampleStatus (Except.ok exampleRecords) (fun _ => true) =
      [Call.list,
       Call.create ⟨"A", "a" ++ CloudflareDomainSuffix, "100.64.0.1", CloudflareSyncDNSComment, 1⟩,
       Call.delete "recc"] :=
  sync_convergence exampleStatus exampleRecords (fun _ => true) "a" "b" "c"
    "100.64.0.1" "100.64.0.2" "recc"
    (by decide) (by decide) (by decide)
    (fun x => by
      rw [show (meshSnapshot exampleStatus).1 = ["a", "b"] from by decide]
      simp)
    (fun x => by
      rw [show (cfSnapshot exampleRecords).1 = ["b", "c"] from by decide]
      simp)
    (by decide) (by decide) (by decide) (by decide)

/-- C2: when the managed-record listing fails, `sync` issues no create and
no delete — the trace is the listing call alone — and the provider record
state is unchanged by the cycle. -/
theorem sync_list_failure (st : Status) (e : Unit) (createOk deleteOk : String → Bool)
    (freshId : String → String) (records : List DNSRecord) :
    sync st (Except.error e) createOk = [Call.list]
    ∧ applyTrace createOk deleteOk freshId records (sync st (Except.error e) createOk)
        = records :=
  ⟨rfl, rfl⟩

/-- C10: when the mesh directory and the managed directory have the same
name set, the symmetric difference is empty and `sync` issues only the
listing call — no create and no delete. -/
theorem sync_no_diff (st : Status) (records : List DNSRecord) (createOk : String → Bool)
    (h : ∀ x, x ∈ (meshSnapshot st).1 ↔ x ∈ (cfSnapshot records).1) :
    sync st (Except.ok records) createOk = [Call.list] := by
  rw [sync_ok, if_pos (symmetricDifference_eq_nil _ _ h)]

/-- Witness: `sync_no_diff` at a concrete in-sync status and listing. -/
theorem sync_no_diff_witness :
    sync syncedStatus (Except.ok syncedRecords) (fun _ => true) = [Call.list] :=
  sync_no_diff syncedStatus syncedRecords (fun _ => true) (fun x => by
    rw [show (meshSnapshot syncedStatus).1 = ["h"] from by decide,
      show (cfSnapshot syncedRecords).1 = ["h"] from by decide])

theorem string_append_right_cancel {a b c : String} (h : a ++ c = b ++ c) : a = b := by
  apply String.ext
  have hd : a.data ++ c.data = b.data ++ c.data := by
    rw [← String.data_append, ← String.data_append, h]
  exact List.append_cancel_right hd

theorem deleteName_no_create (cfS : List String) (cfMap : String → Option String)
    (name : String) (p : CreateParams) : Call.create p ∉ deleteName cfS cfMap name := by
  unfold deleteName
  by_cases h : name ∈ cfS
  · rw [if_pos h]
    cases hc : cfMap name
    · simp
    · simp
  · rw [if_neg h]
    simp

theorem create_name_of_mem_syncName (tsS cfS : List String)
    (tsMap cfMap : String → Option String) (createOk : String → Bool)
    (n : String) (p : CreateParams)
    (h : Call.create p ∈ syncName tsS cfS tsMap cfMap createOk n) :
    p.name = n ++ CloudflareDomainSuffix := by
  unfold syncName at h
  by_cases hts : n ∈ tsS
  · rw [if_pos hts] at h
    split at h
    · simp at h
    · by_cases hco : createOk (n ++ CloudflareDomainSuffix) = true
      · rw [if_pos hco] at h
        rcases List.mem_cons.1 h with heq | hmem
        · injection heq with hpe
          rw [hpe]
        · exact absurd hmem (deleteName_no_create _ _ _ _)
      · rw [if_neg hco] at h
        simp only [List.mem_singleton] at h
        injection h with hpe
        rw [hpe]
  · rw [if_neg hts] at h
    exact absurd h (deleteName_no_create _ _ _ _)

/-- C7: a mesh name `x` with a tracked presence but no IPv4 address and no
managed record is a member of the symmetric difference, yet its iteration of
the reconciliation loop issues no call at all (the address lookup is guarded
and the missing-address branch skips), and no create call for `x`'s DNS name
appears anywhere in the cycle's trace; `sync` is total, so the cycle always
runs to completion. -/
theorem sync_missing_address (st : Status) (records : List DNSRecord)
    (createOk : String → Bool) (x : String)
    (hx : x ∈ (meshSnapshot st).1)
    (hnone : (meshSnapshot st).2 x = none)
    (hxcf : x ∉ (cfSnapshot records).1) :
    x ∈ symmetricDifference (meshSnapshot st).1 (cfSnapshot records).1
    ∧ syncName (meshSnapshot st).1 (cfSnapshot records).1 (meshSnapshot st).2
        (cfSnapshot records).2 createOk x = []
    ∧ ∀ p : CreateParams, Call.create p ∈ sync st (Except.ok records) createOk →
        p.name ≠ x ++ CloudflareDomainSuffix := by
  have hempty : syncName (meshSnapshot st).1 (cfSnapshot records).1 (meshSnapshot st).2
      (cfSnapshot records).2 createOk x = [] :=
    syncName_ts_none _ _ _ _ _ _ hx hnone
  refine ⟨(mem_symmetricDifference _ _ x).2 (Or.inl ⟨hx, hxcf⟩), hempty, ?_⟩
  intro p hp hname
  rw [sync_ok] at hp
  by_cases hD : symmetricDifference (meshSnapshot st).1 (cfSnapshot records).1 = []
  · rw [if_pos hD] at hp
    simp at hp
  · rw [if_neg hD] at hp
    rcases List.mem_cons.1 hp with heq | hmem
    · exact Call.noConfusion heq
    · obtain ⟨n, _, hmem2⟩ := List.mem_flatMap.1 hmem
      have hpn := create_name_of_mem_syncName _ _ _ _ _ _ _ hmem2
      have hnx : n = x := string_append_right_cancel (hpn.symm.trans hname)
      rw [hnx, hempty] at hmem2
      exact absurd hmem2 (List.not_mem_nil _)

/-- Witness: `sync_missing_address` at a concrete status whose peer `x` has
only a non-IPv4 address, with an empty record listing. -/
theorem sync_missing_address_witness :
    "x" ∈ symmetricDifference (meshSnapshot mixedStatus).1 (cfSnapshot []).1
    ∧ syncName (meshSnapshot mixedStatus).1 (cfSnapshot []).1 (meshSnapshot mixedStatus).2
        (cfSnapshot []).2 (fun _ => true) "x" = [] :=
  ⟨(sync_missing_address mixedStatus [] (fun _ => true) "x"
      (by decide) (by decide) (by decide)).1,
   (sync_missing_address mixedStatus [] (fun _ => true) "x"
      (by decide) (by decide) (by decide)).2.1⟩

theorem applyCall_list (createOk deleteOk : String → Bool) (freshId : String → String)
    (recs : List DNSRecord) : applyCall createOk deleteOk freshId recs Call.list = recs := rfl

theorem applyCall_create_fail (createOk deleteOk : String → Bool) (freshId : String → String)
    (recs : List DNSRecord) (p : CreateParams) (h : createOk p.name = false) :
    applyCall createOk deleteOk freshId recs (Call.create p) = recs := by
  unfold applyCall
  simp [h]

theorem applyCall_create_ok (createOk deleteOk : String → Bool) (freshId : String → String)
    (recs : List DNSRecord) (p : CreateParams) (h : createOk p.name = true) :
    applyCall createOk deleteOk freshId recs (Call.create p)
      = recs ++ [⟨freshId p.name, p.name⟩] := by
  unfold applyCall
  simp [h]

theorem applyCall_delete_ok (createOk deleteOk : String → Bool) (freshId : String → String)
    (recs : List DNSRecord) (i : String) (h : deleteOk i = true) :
    applyCall createOk deleteOk freshId recs (Call.delete i)
      = recs.filter (fun r => r.id ≠ i) := by
  unfold applyCall
  simp [h]

/-- C3: per-item failure isolation.  In the convergence scenario in which the
create call for `a` fails while the delete for `c`'s record succeeds, the
cycle still issues both calls (the failure of one name's call does not stop
the other names' calls from being issued) and completes with `c`'s record
deleted and no record added for `a`. -/
theorem sync_partial_failure (st : Status) (records : List DNSRecord)
    (createOk deleteOk : String → Bool) (freshId : String → String)
    (a b c ipa ipb idc : String)
    (hab : a ≠ b) (hac : a ≠ c) (hbc : b ≠ c)
    (hts : ∀ x, x ∈ (meshSnapshot st).1 ↔ x = a ∨ x = b)
    (hcf : ∀ x, x ∈ (cfSnapshot records).1 ↔ x = b ∨ x = c)
    (hipa : (meshSnapshot st).2 a = some ipa)
    (hipb : (meshSnapshot st).2 b = some ipb)
    (hidc : (cfSnapshot records).2 c = some idc)
    (hfail : createOk (a ++ CloudflareDomainSuffix) = false)
    (hdel : deleteOk idc = true) :
    sync st (Except.ok records) createOk =
      [Call.list,
       Call.create ⟨"A", a ++ CloudflareDomainSuffix, ipa, CloudflareSyncDNSComment, 1⟩,
       Call.delete idc]
    ∧ applyTrace createOk deleteOk freshId records (sync st (Except.ok records) createOk)
        = records.filter (fun r => r.id ≠ idc) := by
  have htrace := convergence_trace st records createOk a b c ipa idc hab hac hbc hts hcf
    hipa hidc
  refine ⟨htrace, ?_⟩
  rw [htrace]
  unfold applyTrace
  simp only [List.foldl_cons, List.foldl_nil]
  rw [applyCall_list, applyCall_create_fail _ _ _ _ _ hfail,
    applyCall_delete_ok _ _ _ _ _ hdel]

/-- Witness: `sync_partial_failure` at the concrete convergence input with
every create failing and every delete succeeding. -/
theorem sync_partial_failure_witness :
    sync exampleStatus (Except.ok exampleRecords) (fun _ => false) =
      [Call.list,
       Call.create ⟨"A", "a" ++ CloudflareDomainSuffix, "100.64.0.1", CloudflareSyncDNSComment, 1⟩,
       Call.delete "recc"]
    ∧ applyTrace (fun _ => false) (fun _ => true) (fun n => n) exampleRecords
        (sync exampleStatus (Except.ok exampleRecords) (fun _ => false))
        = exampleRecords.filter (fun r => r.id ≠ "recc") :=
  sync_partial_failure exampleStatus exampleRecords (fun _ => false) (fun _ => true)
    (fun n => n) "a" "b" "c" "100.64.0.1" "100.64.0.2" "recc"
    (by decide) (by decide) (by decide)
    (fun x => by
      rw [show (meshSnapshot exampleStatus).1 = ["a", "b"] from by decide]
      simp)
    (fun x => by
      rw [show (cfSnapshot exampleRecords).1 = ["b", "c"] from by decide]
      simp)
    (by decide) (by decide) (by decide) (by decide) (by decide)

theorem lastIs4_nil : lastIs4 [] = none := rfl

theorem lastIs4_cons (ip : TSIP) (ips : List TSIP) :
    lastIs4 (ip :: ips) =
      match lastIs4 ips with
      | some s => some s
      | none => if ip.is4 then some ip.str else none := by
  unfold lastIs4
  by_cases h4 : ip.is4
  · rw [List.filter_cons_of_pos (by simp [h4])]
    cases hfl : (ips.filter (fun ip => ip.is4)).getLast? with
    | none =>
        rw [List.getLast?_eq_none_iff] at hfl
        rw [hfl]
        simp [h4]
    | some y =>
        have hne : ips.filter (fun ip => ip.is4) ≠ [] := by
          intro hcon
          rw [hcon] at hfl
          simp at hfl
        cases hfc : ips.filter (fun ip => ip.is4) with
        | nil => exact absurd hfc hne
        | cons z zs =>
            rw [hfc] at hfl
            rw [List.getLast?_cons_cons, hfl]
            rfl
  · rw [List.filter_cons_of_neg (by simp [h4])]
    cases hfl : (ips.filter (fun ip => ip.is4)).getLast? with
    | none => simp [hfl, h4]
    | some y => simp [hfl]

theorem ipFold_at (name : String) (ips : List TSIP) :
    ∀ m0 : String → Option String,
      (ips.foldl (addIP name) m0) name =
        match lastIs4 ips with
        | some s => some s
        | none => m0 name := by
  induction ips with
  | nil => intro m0; rfl
  | cons ip ips ih =>
      intro m0
      rw [List.foldl_cons, ih, lastIs4_cons]
      cases hl : lastIs4 ips with
      | some s => rfl
      | none =>
          by_cases h4 : ip.is4
          · simp [addIP, h4, mapPut]
          · simp [addIP, h4, mapPut]

/-- C5 is false on the code as stated: for an entry carrying two IPv4
addresses the snapshot keeps the LAST one seen, not the first — the inner
loop has no break, so each IPv4 address overwrites the map entry. -/
theorem meshSnapshot_not_first_ipv4 :
    firstIs4 twoV4Status.self.tailscaleIPs = some "1.1.1.1"
    ∧ (meshSnapshot twoV4Status).2 "x" ≠ some "1.1.1.1"
    ∧ (meshSnapshot twoV4Status).2 "x" = some "2.2.2.2" := by
  refine ⟨by decide, by decide, by decide⟩

/-- C5 (amended): for every processed mesh entry whose normalized name is
nonempty and whose address list contains at least one IPv4-family address,
the snapshot step records the LAST IPv4-family address of the entry's list
as the value for that name. -/
theorem addEntry_records_last_ipv4 (acc : Directory) (p : PeerStatus) (n s : String)
    (hn : getName p.dnsName = n) (hne : n ≠ "") (hs : lastIs4 p.tailscaleIPs = some s) :
    (addEntry acc p).2 n = some s := by
  rw [addEntry_def, hn, if_neg hne]
  show (p.tailscaleIPs.foldl (addIP n) acc.2) n = some s
  rw [ipFold_at, hs]

/-- Witness: `addEntry_records_last_ipv4` at the two-IPv4 entry. -/
theorem addEntry_records_last_ipv4_witness :
    (addEntry emptyDirectory twoV4Status.self).2 "x" = some "2.2.2.2" :=
  addEntry_records_last_ipv4 emptyDirectory twoV4Status.self "x" "2.2.2.2"
    (by decide) (by decide) (by decide)

/-- C8 is false on the code as stated: when the later of two same-named
entries has no IPv4 address, the mapping keeps the EARLIER entry's address
instead of whatever derives from the later entry (which derives none). -/
theorem meshSnapshot_keeps_earlier_address :
    dupNameStatus.peers = [⟨"x.b", ([] : List TSIP)⟩]
    ∧ getName "x.b" = getName dupNameStatus.self.dnsName
    ∧ lastIs4 ([] : List TSIP) = none
    ∧ firstIs4 ([] : List TSIP) = none
    ∧ (meshSnapshot dupNameStatus).2 "x" = some "1.1.1.1" := by
  refine ⟨by decide, by decide, rfl, rfl, by decide⟩

/-- C8 (amended): when two entries observed in order normalize to the same
nonempty name, the later entry's address overwrites the earlier one in the
mapping whenever the later entry has at least one IPv4-family address; a
later entry with no IPv4 address leaves the earlier entry's value in place. -/
theorem meshSnapshot_later_overwrites (p q : PeerStatus) (n : String)
    (hp : getName p.dnsName = n) (hq : getName q.dnsName = n) (hne : n ≠ "") :
    (∀ s, lastIs4 q.tailscaleIPs = some s → (meshSnapshot ⟨p, [q]⟩).2 n = some s)
    ∧ (lastIs4 q.tailscaleIPs = none →
        (meshSnapshot ⟨p, [q]⟩).2 n = (addEntry emptyDirectory p).2 n) := by
  constructor
  · intro s hs
    unfold meshSnapshot
    simp only [List.foldl_cons, List.foldl_nil]
    exact addEntry_records_last_ipv4 _ q n s hq hne hs
  · intro hnone
    unfold meshSnapshot
    simp only [List.foldl_cons, List.foldl_nil]
    rw [addEntry_def _ q, hq, if_neg hne]
    show (q.tailscaleIPs.foldl (addIP n) (addEntry emptyDirectory p).2) n
      = (addEntry emptyDirectory p).2 n
    rw [ipFold_at, hnone]

/-- Witness: `meshSnapshot_later_overwrites` at the pair of same-named
entries whose later entry carries the IPv4 address 3.3.3.3. -/
theorem meshSnapshot_later_overwrites_witness :
    (meshSnapshot dupNameStatus2).2 "x" = some "3.3.3.3" :=
  (meshSnapshot_later_overwrites ⟨"x.a", [⟨true, "1.1.1.1"⟩]⟩ ⟨"x.b", [⟨true, "3.3.3.3"⟩]⟩ "x"
    (by decide) (by decide) (by decide)).1 "3.3.3.3" (by decide)

/-- C6 is false on the code as stated: the snapshot consumes only the first
result page of the listing, so a managed record returned on a later page is
absent from the managed directory even though the paging respects the
provider's per-page cap (one record per page here). -/
theorem cfSnapshot_misses_later_pages :
    (∀ page ∈ twoPages, page.length ≤ 1)
    ∧ (⟨"2", "b.int"⟩ : DNSRecord) ∈ twoPages.flatten
    ∧ getName "b.int" = "b"
    ∧ "b" ∉ (cfSnapshot (listedRecords twoPages)).1 := by
  refine ⟨by decide, by decide, by decide, by decide⟩

/-- C6 (amended): every managed record that the single listing call returns
— that is, every record of the FIRST result page — with a nonempty canonical
name appears in the managed directory; records on later pages do not, as the
counterexample shows. -/
theorem cfSnapshot_first_page_complete (pages : List (List DNSRecord)) (r : DNSRecord)
    (hr : r ∈ listedRecords pages) (hne : getName r.name ≠ "") :
    getName r.name ∈ (cfSnapshot (listedRecords pages)).1 :=
  (mem_cfSnapshot _ _).2 ⟨hne, r, hr, rfl⟩

/-- Witness: `cfSnapshot_first_page_complete` at the first record of the
two-page listing. -/
theorem cfSnapshot_first_page_complete_witness :
    getName "a.int" ∈ (cfSnapshot (listedRecords twoPages)).1 :=
  cfSnapshot_first_page_complete twoPages ⟨"1", "a.int"⟩ (by decide) (by decide)

theorem applyTrace_nil (createOk deleteOk : String → Bool) (freshId : String → String)
    (recs : List DNSRecord) : applyTrace createOk deleteOk freshId recs [] = recs := rfl

theorem applyTrace_cons (createOk deleteOk : String → Bool) (freshId : String → String)
    (recs : List DNSRecord) (cl : Call) (calls : List Call) :
    applyTrace createOk deleteOk freshId recs (cl :: calls)
      = applyTrace createOk deleteOk freshId
          (applyCall createOk deleteOk freshId recs cl) calls := rfl

theorem applyTrace_append (createOk deleteOk : String → Bool) (freshId : String → String)
    (recs : List DNSRecord) (l1 l2 : List Call) :
    applyTrace createOk deleteOk freshId recs (l1 ++ l2)
      = applyTrace createOk deleteOk freshId
          (applyTrace createOk deleteOk freshId recs l1) l2 := by
  unfold applyTrace
  rw [List.foldl_append]

theorem flatMap_eq_map_of_singleton {α β : Type} (l : List α) (f : α → List β) (g : α → β)
    (h : ∀ x ∈ l, f x = [g x]) : l.flatMap f = l.map g := by
  induction l with
  | nil => rfl
  | cons x xs ih =>
      rw [List.flatMap_cons, List.map_cons, h x (by simp),
        ih (fun y hy => h y (by simp [hy]))]
      rfl

theorem applyTrace_creates (deleteOk : String → Bool) (freshId : String → String)
    (names : List String) (cp : String → CreateParams) :
    ∀ recs : List DNSRecord,
      applyTrace (fun _ => true) deleteOk freshId recs
        (names.map (fun n => Call.create (cp n)))
      = recs ++ names.map (fun n => ⟨freshId (cp n).name, (cp n).name⟩) := by
  induction names with
  | nil => intro recs; simp [applyTrace]
  | cons n ns ih =>
      intro recs
      rw [List.map_cons, List.map_cons, applyTrace_cons,
        applyCall_create_ok _ _ _ _ _ rfl, ih]
      simp

theorem applyTrace_deletes (createOk : String → Bool) (freshId : String → String)
    (names : List String) (idOf : String → String) :
    ∀ recs : List DNSRecord,
      applyTrace createOk (fun _ => true) freshId recs
        (names.map (fun n => Call.delete (idOf n)))
      = recs.filter (fun r => r.id ∉ names.map idOf) := by
  induction names with
  | nil => intro recs; simp [applyTrace]
  | cons n ns ih =>
      intro recs
      rw [List.map_cons, applyTrace_cons, applyCall_delete_ok _ _ _ _ _ rfl, ih,
        List.filter_filter, List.map_cons]
      apply List.filter_congr
      intro r _
      by_cases h1 : r.id = idOf n <;> by_cases h2 : r.id ∈ ns.map idOf <;>
        simp [h1, h2, List.mem_cons]

theorem sync_trace_apply (tsS cfS : List String) (tsM cfM : String → Option String)
    (freshId : String → String) (records : List DNSRecord)
    (hts : ∀ n ∈ tsS, n ∉ cfS → ∃ ip, tsM n = some ip)
    (hcf : ∀ n ∈ cfS, n ∉ tsS → ∃ i, cfM n = some i) :
    applyTrace (fun _ => true) (fun _ => true) freshId records
      ((symmetricDifference tsS cfS).flatMap (syncName tsS cfS tsM cfM (fun _ => true)))
    = (records ++ (tsS.filter (fun x => x ∉ cfS)).map
        (fun n => (⟨freshId (n ++ CloudflareDomainSuffix),
          n ++ CloudflareDomainSuffix⟩ : DNSRecord))).filter
      (fun r => r.id ∉ (cfS.filter (fun x => x ∉ tsS)).map (fun n => (cfM n).getD "")) := by
  have fA : ∀ n ∈ tsS.filter (fun x => x ∉ cfS),
      syncName tsS cfS tsM cfM (fun _ => true) n
        = [Call.create ⟨"A", n ++ CloudflareDomainSuffix, (tsM n).getD "",
            CloudflareSyncDNSComment, 1⟩] := by
    intro n hn
    simp only [List.mem_filter, decide_eq_true_eq] at hn
    obtain ⟨ip, hip⟩ := hts n hn.1 hn.2
    rw [syncName_tsOnly _ _ _ _ _ _ _ hn.1 hn.2 hip, hip]
    rfl
  have fB : ∀ n ∈ cfS.filter (fun x => x ∉ tsS),
      syncName tsS cfS tsM cfM (fun _ => true) n = [Call.delete ((cfM n).getD "")] := by
    intro n hn
    simp only [List.mem_filter, decide_eq_true_eq] at hn
    obtain ⟨i, hi⟩ := hcf n hn.1 hn.2
    rw [syncName_cfOnly _ _ _ _ _ _ _ hn.2 hn.1 hi, hi]
    rfl
  rw [show symmetricDifference tsS cfS
      = tsS.filter (fun x => x ∉ cfS) ++ cfS.filter (fun x => x ∉ tsS) from rfl]
  rw [List.flatMap_append,
    flatMap_eq_map_of_singleton _ _
      (fun n => Call.create ⟨"A", n ++ CloudflareDomainSuffix, (tsM n).getD "",
        CloudflareSyncDNSComment, 1⟩) fA,
    flatMap_eq_map_of_singleton _ _ (fun n => Call.delete ((cfM n).getD "")) fB]
  rw [applyTrace_append,
    applyTrace_creates _ _ _
      (fun n => ⟨"A", n ++ CloudflareDomainSuffix, (tsM n).getD "", CloudflareSyncDNSComment, 1⟩),
    applyTrace_deletes _ _ _ (fun n => (cfM n).getD "")]

theorem records2_eq (st : Status) (records : List DNSRecord) (freshId : String → String)
    (H1 : ∀ n ∈ (meshSnapshot st).1, (meshSnapshot st).2 n ≠ none)
    (hD : ¬ symmetricDifference (meshSnapshot st).1 (cfSnapshot records).1 = []) :
    applyTrace (fun _ => true) (fun _ => true) freshId records
      (sync st (Except.ok records) (fun _ => true))
    = (records ++ ((meshSnapshot st).1.filter
        (fun x => x ∉ (cfSnapshot records).1)).map
        (fun n => (⟨freshId (n ++ CloudflareDomainSuffix),
          n ++ CloudflareDomainSuffix⟩ : DNSRecord))).filter
      (fun r => r.id ∉ ((cfSnapshot records).1.filter
        (fun x => x ∉ (meshSnapshot st).1)).map
          (fun n => ((cfSnapshot records).2 n).getD "")) := by
  rw [sync_ok, if_neg hD, applyTrace_cons, applyCall_list]
  apply sync_trace_apply
  · intro n hn _
    cases hip : (meshSnapshot st).2 n with
    | none => exact absurd hip (H1 n hn)
    | some ip => exact ⟨ip, rfl⟩
  · intro n hn _
    exact cfSnapshot_map_total records n hn

/-- C4 is false on the code as stated: a mesh name with no IPv4 address is a
permanently stuck diff entry.  With mesh name `x` carrying no address and an
empty record listing — all provider calls succeeding and nothing changing
externally — the first cycle issues no create (the missing-address branch
skips), so the second run's ReconciliationSet is still `[x]`, not empty. -/
theorem second_run_diff_nonempty :
    symmetricDifference (meshSnapshot noAddrStatus).1
      (cfSnapshot (applyTrace (fun _ => true) (fun _ => true) (fun n => n) []
        (sync noAddrStatus (Except.ok []) (fun _ => true)))).1 = ["x"] := by
  decide

/-- C4 (amended): running the cycle twice with no external changes in
between — the second listing being exactly the provider state the first
run's successful creates and deletes produced — yields an empty
ReconciliationSet on the second run, PROVIDED every mesh name carries an
IPv4 address (the counterexample shows a name with no address stays in the
diff forever), the listed records have pairwise distinct ids, at most one
listed record exists per nonempty canonical name, provider-assigned ids of
created records are fresh, and every create and delete call succeeds. -/
theorem second_run_diff_empty (st : Status) (records : List DNSRecord)
    (freshId : String → String)
    (H1 : ∀ n ∈ (meshSnapshot st).1, (meshSnapshot st).2 n ≠ none)
    (H2a : ∀ r ∈ records, ∀ s ∈ records, r.id = s.id → r = s)
    (H2b : ∀ r ∈ records, ∀ s ∈ records, getName r.name = getName s.name →
      getName r.name ≠ "" → r = s)
    (H4 : ∀ m : String, freshId m ∉ records.map (fun r => r.id)) :
    symmetricDifference (meshSnapshot st).1
      (cfSnapshot (applyTrace (fun _ => true) (fun _ => true) freshId records
        (sync st (Except.ok records) (fun _ => true)))).1 = [] := by
  by_cases hD : symmetricDifference (meshSnapshot st).1 (cfSnapshot records).1 = []
  · rw [sync_ok, if_pos hD, applyTrace_cons, applyCall_list, applyTrace_nil]
    exact hD
  · rw [records2_eq st records freshId H1 hD]
    apply symmetricDifference_eq_nil
    intro m
    constructor
    · intro hm
      have hmne : m ≠ "" := ((mem_meshSnapshot st m).1 hm).1
      rw [mem_cfSnapshot]
      refine ⟨hmne, ?_⟩
      by_cases hmcf : m ∈ (cfSnapshot records).1
      · obtain ⟨hne0, r, hr, hgr⟩ := (mem_cfSnapshot records m).1 hmcf
        refine ⟨r, List.mem_filter.2 ⟨List.mem_append.2 (Or.inl hr), ?_⟩, hgr⟩
        simp only [decide_eq_true_eq, List.mem_map]
        rintro ⟨n, hnB, hidn⟩
        simp only [List.mem_filter, decide_eq_true_eq] at hnB
        obtain ⟨i, hi⟩ := cfSnapshot_map_total records n hnB.1
        obtain ⟨s, hs, hsid, hsname⟩ := cfSnapshot_map_some records n i hi
        rw [hi] at hidn
        simp only [Option.getD_some] at hidn
        have hrs : r = s := H2a r hr s hs (hsid.trans hidn).symm
        have hmn : m = n := by rw [← hgr, hrs, hsname]
        exact hnB.2 (hmn ▸ hm)
      · refine ⟨⟨freshId (m ++ CloudflareDomainSuffix), m ++ CloudflareDomainSuffix⟩,
          List.mem_filter.2 ⟨List.mem_append.2 (Or.inr ?_), ?_⟩, ?_⟩
        · rw [List.mem_map]
          exact ⟨m, List.mem_filter.2 ⟨hm, by simpa using hmcf⟩, rfl⟩
        · simp only [decide_eq_true_eq, List.mem_map]
          rintro ⟨n, hnB, hidn⟩
          simp only [List.mem_filter, decide_eq_true_eq] at hnB
          obtain ⟨i, hi⟩ := cfSnapshot_map_total records n hnB.1
          obtain ⟨s, hs, hsid, hsname⟩ := cfSnapshot_map_some records n i hi
          rw [hi] at hidn
          simp only [Option.getD_some] at hidn
          exact H4 (m ++ CloudflareDomainSuffix)
            (List.mem_map.2 ⟨s, hs, hsid.trans hidn⟩)
        · obtain ⟨hne0, p, hp, hgp⟩ := (mem_meshSnapshot st m).1 hm
          show getName (m ++ CloudflareDomainSuffix) = m
          rw [← hgp, getName_append_suffix]
    · intro hm2
      obtain ⟨hmne, r, hr2, hgr⟩ := (mem_cfSnapshot _ m).1 hm2
      obtain ⟨hrsrc, hrdel⟩ := List.mem_filter.1 hr2
      simp only [decide_eq_true_eq] at hrdel
      rcases List.mem_append.1 hrsrc with hrold | hrnew
      · by_contra hmts
        have hmcf : m ∈ (cfSnapshot records).1 :=
          (mem_cfSnapshot records m).2 ⟨hmne, r, hrold, hgr⟩
        obtain ⟨i, hi⟩ := cfSnapshot_map_total records m hmcf
        obtain ⟨s, hs, hsid, hsname⟩ := cfSnapshot_map_some records m i hi
        have hrs : r = s := H2b r hrold s hs (by rw [hgr, hsname]) (by rw [hgr]; exact hmne)
        apply hrdel
        rw [List.mem_map]
        refine ⟨m, List.mem_filter.2 ⟨hmcf, by simpa using hmts⟩, ?_⟩
        rw [hi]
        simp only [Option.getD_some]
        rw [hrs, hsid]
      · rw [List.mem_map] at hrnew
        obtain ⟨n, hnA, hrn⟩ := hrnew
        have hnts : n ∈ (meshSnapshot st).1 :=
          (List.mem_filter.1 hnA).1
        obtain ⟨hne0, p, hp, hgp⟩ := (mem_meshSnapshot st n).1 hnts
        subst hrn
        have hgrn : getName
            (⟨freshId (n ++ CloudflareDomainSuffix),
              n ++ CloudflareDomainSuffix⟩ : DNSRecord).name = n := by
          show getName (n ++ CloudflareDomainSuffix) = n
          rw [← hgp, getName_append_suffix]
        have hmn : m = n := hgr.symm.trans hgrn
        rw [hmn]
        exact hnts

/-- Witness: `second_run_diff_empty` at a one-host status with an address
and an initially empty listing. -/
theorem second_run_diff_empty_witness :
    symmetricDifference (meshSnapshot freshStatus).1
      (cfSnapshot (applyTrace (fun _ => true) (fun _ => true) (fun n => n) []
        (sync freshStatus (Except.ok []) (fun _ => true)))).1 = [] :=
  second_run_diff_empty freshStatus [] (fun n => n)
    (by decide) (by simp) (by simp) (by simp)
